import Mathlib

/-!
Verification development for a from-scratch encoder-decoder transformer
(two near-identical Jupyter notebooks; the embedded definitions below follow
`model.ipynb`, whose cells match `part_000` except where noted).

Conventions of the shallow embedding:
* token ids are `ℤ` (torch.int64), token sequences are `List ℤ`;
* exact tensor arithmetic is over `ℚ` where the computation is algebraic and
  over `ℝ` where the source applies transcendental functions
  (softmax / sin / cos / log-softmax);
* fallible code (`raise ValueError`) returns `Except String _`;
* boolean mask tensors are `Bool`-valued functions of their indices.
-/

namespace TransformerScratch

/-! ## causal_mask and the masks built by BilingualDataset.__getitem__ -/

/-- Embeds `torch.triu(torch.ones(1, size, size), diagonal=1).type(torch.int)`:
entry `(i, j)` is `1` when it lies on or above the first superdiagonal
(`j ≥ i + 1`) inside the `size × size` square, `0` elsewhere. -/
def triuOnes (size : ℕ) (diagonal : ℤ) (i j : ℕ) : ℤ :=
  if i < size ∧ j < size ∧ (i : ℤ) + diagonal ≤ (j : ℤ) then 1 else 0

/-- Embeds `causal_mask(size)`: `mask = triu(ones(1,size,size), diagonal=1); return mask == 0`. -/
def causal_mask (size : ℕ) (i j : ℕ) : Bool :=
  triuOnes size 1 i j == 0

/-- Embeds `(input != pad_token)` on a 1-D int64 tensor: `true` exactly at
positions not holding the PAD id (positions past the end are irrelevant;
`getD` pads with `pad` there, yielding `false`). -/
def paddingMask (input : List ℤ) (pad : ℤ) (j : ℕ) : Bool :=
  input.getD j pad != pad

/-- Embeds the `"encoder_mask"` entry of the dict returned by
`BilingualDataset.__getitem__`: `(encoder_input != pad).unsqueeze(0).int()`,
a pure padding mask broadcast over the query axis. -/
def encoderMaskOf (encoderInput : List ℤ) (pad : ℤ) (j : ℕ) : Bool :=
  paddingMask encoderInput pad j

/-- Embeds the `"decoder_mask"` entry:
`(decoder_input != pad).unsqueeze(0).int() & causal_mask(decoder_input.size(0))`.
Broadcasting makes the padding factor depend on the key position `j` only. -/
def decoderMaskOf (decoderInput : List ℤ) (pad : ℤ) (i j : ℕ) : Bool :=
  paddingMask decoderInput pad j && causal_mask decoderInput.length i j

/-! ## BilingualDataset.__getitem__ -/

/-- The tensors assembled per sample by `BilingualDataset.__getitem__`
(the dict entries that are token tensors or masks; the raw texts are omitted). -/
structure GetItem where
  encNumPadding : ℤ
  decNumPadding : ℤ
  encoderInput : List ℤ
  decoderInput : List ℤ
  label : List ℤ
  encoderMask : ℕ → Bool
  decoderMask : ℕ → ℕ → Bool

/-- Embeds `BilingualDataset.__getitem__` after tokenization: `encTokens` and
`decTokens` are `enc_input_tokens` / `dec_input_tokens`, and `sos`, `eos`, `pad`
are the reserved ids.  Padding counts are computed in `ℤ`
(`seq_len - len - 2`, `seq_len - len - 1`); a negative count raises
`ValueError('Sentence is too long')`. -/
def getitem (seqLen : ℕ) (sos eos pad : ℤ) (encTokens decTokens : List ℤ) :
    Except String GetItem :=
  let encNumPaddingTokens : ℤ := (seqLen : ℤ) - encTokens.length - 2
  let decNumPaddingTokens : ℤ := (seqLen : ℤ) - decTokens.length - 1
  if encNumPaddingTokens < 0 ∨ decNumPaddingTokens < 0 then
    .error "Sentence is too long"
  else
    let encoderInput := [sos] ++ encTokens ++ [eos] ++ List.replicate encNumPaddingTokens.toNat pad
    let decoderInput := [sos] ++ decTokens ++ List.replicate decNumPaddingTokens.toNat pad
    let label := decTokens ++ [eos] ++ List.replicate decNumPaddingTokens.toNat pad
    .ok { encNumPadding := encNumPaddingTokens
          decNumPadding := decNumPaddingTokens
          encoderInput := encoderInput
          decoderInput := decoderInput
          label := label
          encoderMask := encoderMaskOf encoderInput pad
          decoderMask := decoderMaskOf decoderInput pad }

/-! ## greeedy_decode (sic — the source's name)

The model-dependent part of one loop iteration — `model.decode` on the current
decoder input followed by `model.project` and `torch.max` over the last
position's distribution — is abstracted as `nextWord`, a function of the
current decoder input and of the target mask passed to `model.decode`.
The `while True` loop is embedded with an explicit fuel; proving the result is
`some _` with fuel `max_len` is exactly the claim that the loop terminates
within `max_len` iterations.  Alongside the result the embedding returns a
ghost trace: for each iteration that reached `model.decode`, the decoder-input
length at the top of that iteration and the mask passed
(`causal_mask(decoder_input.size(1))` in the source). -/

/-- One loop iteration of `greeedy_decode`: stop when the decoder input has
grown to `max_len`; otherwise build `decoder_mask = causal_mask(len)`, obtain
the argmax token, append it, and stop if it is EOS. -/
def greeedyLoop (nextWord : List ℤ → (ℕ → ℕ → Bool) → ℤ) (eosIdx : ℤ) (maxLen : ℕ) :
    ℕ → List ℤ → Option (List ℤ × List (ℕ × (ℕ → ℕ → Bool)))
  | 0, _ => none
  | fuel + 1, decoderInput =>
    if decoderInput.length = maxLen then some (decoderInput, [])
    else if nextWord decoderInput (causal_mask decoderInput.length) = eosIdx then
      some (decoderInput ++ [nextWord decoderInput (causal_mask decoderInput.length)],
            [(decoderInput.length, causal_mask decoderInput.length)])
    else
      (greeedyLoop nextWord eosIdx maxLen fuel
          (decoderInput ++ [nextWord decoderInput (causal_mask decoderInput.length)])).map
        (fun p => (p.1, (decoderInput.length, causal_mask decoderInput.length) :: p.2))

/-- Embeds `greeedy_decode`: the decoder input starts as the length-1 sequence
`[sos_idx]`, and the loop is run with fuel `max_len`. -/
def greeedy_decode (nextWord : List ℤ → (ℕ → ℕ → Bool) → ℤ) (sosIdx eosIdx : ℤ)
    (maxLen : ℕ) : Option (List ℤ × List (ℕ × (ℕ → ℕ → Bool))) :=
  greeedyLoop nextWord eosIdx maxLen maxLen [sosIdx]

/-! ## MultiHeadAttentionBlock.attention

One `(batch, head)` slice of the score computation.  `√d_k` is irrational for
general `d_k`, so the scaling factor is a parameter `sqrtDk` (constrained to
be the exact nonnegative square root of `d_k` where a theorem needs it;
the evaluations below use `d_k = 1`, where `√d_k = 1` exactly). -/

/-- Embeds PyTorch's `Tensor.masked_fill(cond, value)` — an OUT-OF-PLACE
operation returning a fresh tensor with `value` where `cond` holds. -/
def masked_fill {s : ℕ} (scores : Fin s → Fin s → ℚ) (cond : Fin s → Fin s → Bool)
    (value : ℚ) : Fin s → Fin s → ℚ :=
  fun i j => if cond i j then value else scores i j

/-- Embeds `attention_scores = (query @ key.transpose(-2, -1)) / math.sqrt(d_k)`
for one head: entry `(i, j)` is the dot product of query row `i` with key
row `j`, divided by `sqrtDk`. -/
def attnScoresRaw (s dk : ℕ) (query key : Fin s → Fin dk → ℚ) (sqrtDk : ℚ) :
    Fin s → Fin s → ℚ :=
  fun i j => (∑ l, query i l * key j l) / sqrtDk

/-- Embeds the pre-softmax scores as left by
`if mask is not None: attention_scores.masked_fill(mask == 0, -1e9)` in
`MultiHeadAttentionBlock.attention`.  The source calls the out-of-place
`masked_fill` as a bare statement and never reassigns its result, so in the
`some mask` branch the fresh filled tensor is discarded and the raw scores
flow on unchanged. -/
def attnScoresAfterMaskStep (s dk : ℕ) (query key : Fin s → Fin dk → ℚ) (sqrtDk : ℚ)
    (mask : Option (Fin s → Fin s → Bool)) : Fin s → Fin s → ℚ :=
  match mask with
  | none => attnScoresRaw s dk query key sqrtDk
  | some m =>
    (fun _discarded => attnScoresRaw s dk query key sqrtDk)
      (masked_fill (attnScoresRaw s dk query key sqrtDk) (fun i j => !(m i j))
        (-1000000000))

/-- Softmax of one score row, `attention_scores.softmax(dim=-1)`. -/
noncomputable def softmaxRow {n : ℕ} (z : Fin n → ℚ) : Fin n → ℝ :=
  fun i => Real.exp (z i) / ∑ j, Real.exp (z j)

/-- The post-softmax attention probabilities produced by
`MultiHeadAttentionBlock.attention` (dropout disabled, as in evaluation). -/
noncomputable def attentionWeights (s dk : ℕ) (query key : Fin s → Fin dk → ℚ)
    (sqrtDk : ℚ) (mask : Option (Fin s → Fin s → Bool)) : Fin s → Fin s → ℝ :=
  fun i => softmaxRow (fun j => attnScoresAfterMaskStep s dk query key sqrtDk mask i j)

/-- Failing input for C1: two positions, one head dimension, all query/key
entries equal to `1`, under the decoder causal mask (which blocks `(0, 1)`). -/
def qkOnes : Fin 2 → Fin 1 → ℚ := fun _ _ => 1

/-- The causal mask on 2 positions, as a `(query, key)` predicate. -/
def causalPair2 : Fin 2 → Fin 2 → Bool := fun i j => decide ((j : ℕ) ≤ (i : ℕ))

/-! ## LayerNormalization -/

/-- Embeds `x.mean(dim=-1, keepdim=True)` on one feature vector. -/
def lastAxisMean {n : ℕ} (x : Fin n → ℚ) : ℚ :=
  (∑ i, x i) / n

/-- Embeds the square of `x.std(dim=-1, keepdim=True)`: `torch.std` uses the
unbiased (Bessel-corrected) sample variance, dividing by `n - 1`. -/
def lastAxisVar {n : ℕ} (x : Fin n → ℚ) : ℚ :=
  (∑ i, (x i - lastAxisMean x) ^ 2) / ((n : ℚ) - 1)

/-- Embeds `LayerNormalization.forward`:
`return self.alpha + (x - mean) / (std + self.eps) + self.bias` — note the
source ADDS `alpha`.  The defaults are `alpha = torch.ones(1)`,
`bias = torch.zeros(1)`, `eps = 10**-6`.  `std` is the (generally irrational)
square root of `lastAxisVar x`, so it is a parameter, constrained exactly
where a theorem evaluates it. -/
def layerNormForward {n : ℕ} (alpha bias eps : ℚ) (x : Fin n → ℚ) (std : ℚ) :
    Fin n → ℚ :=
  fun i => alpha + (x i - lastAxisMean x) / (std + eps) + bias

/-- Modelled from the spec for comparison with `layerNormForward`: the
claimed affine transform `alpha * normalized + bias`. -/
def layerNormAffineSpec {n : ℕ} (alpha bias eps : ℚ) (x : Fin n → ℚ) (std : ℚ) :
    Fin n → ℚ :=
  fun i => alpha * ((x i - lastAxisMean x) / (std + eps)) + bias

/-- Failing input for C2: the three-channel feature vector `(0, 1, 2)`,
whose last-axis mean is `1` and unbiased standard deviation exactly `1`. -/
def xLN : Fin 3 → ℚ := fun i => ((i : ℕ) : ℚ)

/-! ## InputEmbeddings -/

/-- Embeds an `nn.Embedding(vocab_size, d_model)` row lookup: defined for ids
in `[0, vocab_size)` and failing outside that range. -/
def embeddingLookup (weight : List (List ℚ)) (id : ℤ) : Option (List ℚ) :=
  if h : 0 ≤ id ∧ id.toNat < weight.length then some (weight.get ⟨id.toNat, h.2⟩)
  else none

/-- Embeds `InputEmbeddings.forward`:
`return self.embedding(x) * math.sqrt(self.d_model)` on a `(batch, seq_len)`
tensor of token ids — look up each id's embedding row and scale it by
`sqrtD` (which stands for the generally irrational `√d_model` and is
constrained to be its exact square root in the theorem). -/
def inputEmbeddingsForward (weight : List (List ℚ)) (sqrtD : ℚ) (x : List (List ℤ)) :
    Option (List (List (List ℚ))) :=
  x.mapM (fun row => row.mapM (fun id =>
    (embeddingLookup weight id).map (fun v => v.map (· * sqrtD))))

/-! ## PositionalEncoding

The table is built once in `__init__` into a `register_buffer` from the
constructor arguments alone (no learned parameter, no per-call input), which
the pure function `pe` below reflects: it depends only on `(d_model, pos, i)`,
so the table is trivially identical across calls. -/

/-- Embeds `div_term = torch.exp(torch.arange(0, d_model, 2).float() *
(-math.log(10000.0) / d_model))`: the `i`-th entry corresponds to channel
pair `2i`. -/
noncomputable def div_term (dModel : ℕ) (i : ℕ) : ℝ :=
  Real.exp ((2 * i : ℝ) * (-Real.log 10000 / dModel))

/-- Embeds the table `pe`: `pe[:, 0::2] = sin(position * div_term)` and
`pe[:, 1::2] = cos(position * div_term)`, so channel `2i` of position `pos`
holds `sin(pos · div_term i)` and channel `2i + 1` holds `cos(pos · div_term i)`. -/
noncomputable def pe (dModel : ℕ) (pos i : ℕ) : ℝ :=
  if i % 2 = 0 then Real.sin (pos * div_term dModel (i / 2))
  else Real.cos (pos * div_term dModel (i / 2))

/-! ## ProjectionLayer -/

/-- Embeds `self.proj = nn.Linear(d_model, vocab_size)` applied to one
position's feature vector: `x @ W + b`. -/
noncomputable def projLinear {d v : ℕ} (W : Fin d → Fin v → ℝ) (b : Fin v → ℝ)
    (x : Fin d → ℝ) : Fin v → ℝ :=
  fun j => (∑ k, x k * W k j) + b j

/-- Embeds `torch.log_softmax(·, dim=-1)` on one vocabulary row. -/
noncomputable def log_softmax {v : ℕ} (z : Fin v → ℝ) : Fin v → ℝ :=
  fun j => z j - Real.log (∑ k, Real.exp (z k))

/-- Embeds `ProjectionLayer.forward` (reached as `Transformer.project`):
`torch.log_softmax(self.proj(x), dim=-1)` applied per `(batch, position)`;
the `(batch, L, tgt_vocab_size)` output shape is carried by the type. -/
noncomputable def projectionForward {batch L d v : ℕ} (W : Fin d → Fin v → ℝ)
    (b : Fin v → ℝ) (x : Fin batch → Fin L → Fin d → ℝ) :
    Fin batch → Fin L → Fin v → ℝ :=
  fun bi li => log_softmax (projLinear W b (x bi li))

/-! ## Mask wiring of the training loop

The training loop in both notebooks runs
`encoder_output = model.encode(encoder_input, encoder_mask)` followed by
`decoder_output = model.decode(encoder_output, decoder_mask, decoder_input,
decoder_mask)` — the second argument of `Transformer.decode` is its
`src_mask` parameter, which `Decoder.forward` hands to every
`DecoderBlock.forward`, where it masks the cross-attention sublayer
(`self.cross_attention_block(x, encoder_output, encoder_output, src_mask)`).
The wiring is embedded symbolically over an arbitrary mask type `α`. -/

/-- The masks one `DecoderBlock.forward` hands to its two attention
sublayers: `tgt_mask` to self-attention, `src_mask` to cross-attention. -/
structure DecoderBlockMaskUse (α : Type) where
  selfAttn : α
  crossAttn : α
deriving DecidableEq

/-- Embeds the mask dataflow of `DecoderBlock.forward(x, encoder_output,
src_mask, tgt_mask)`. -/
def decoderBlockMaskUse {α : Type} (srcMask tgtMask : α) : DecoderBlockMaskUse α :=
  { selfAttn := tgtMask, crossAttn := srcMask }

/-- Embeds `Decoder.forward`: each of the `n` layers receives the same
`(src_mask, tgt_mask)` pair, and `Transformer.decode` forwards its own
`src_mask`/`tgt_mask` arguments to it unchanged. -/
def transformerDecodeMaskUse {α : Type} (n : ℕ) (srcMask tgtMask : α) :
    List (DecoderBlockMaskUse α) :=
  List.replicate n (decoderBlockMaskUse srcMask tgtMask)

/-- Embeds the training loop's decode call
`model.decode(encoder_output, decoder_mask, decoder_input, decoder_mask)`:
`decoder_mask` is passed both in `src_mask` position and in `tgt_mask`
position; `encoder_mask` is not passed to `decode` at all. -/
def trainStepDecodeMaskUse {α : Type} (n : ℕ) (encoderMask decoderMask : α) :
    List (DecoderBlockMaskUse α) :=
  (fun _unusedByDecode => transformerDecodeMaskUse n decoderMask decoderMask) encoderMask

/-! ## Theorems -/

/-- The three `assert _.size(0) == seq_len` checks of `__getitem__` hold on
every successfully assembled sample. -/
theorem getitem_lengths (seqLen : ℕ) (sos eos pad : ℤ) (encTokens decTokens : List ℤ)
    (r : GetItem) (h : getitem seqLen sos eos pad encTokens decTokens = .ok r) :
    r.encoderInput.length = seqLen ∧ r.decoderInput.length = seqLen ∧
    r.label.length = seqLen := by
  unfold getitem at h
  dsimp only at h
  split at h
  · exact absurd h (by simp)
  · next hc =>
    push_neg at hc
    obtain ⟨hc1, hc2⟩ := hc
    cases h
    simp only [List.length_append, List.length_cons, List.length_nil, List.length_replicate]
    refine ⟨?_, ?_, ?_⟩ <;> omega

/-- C3: in `BilingualDataset.__getitem__` with `seq_len = 10`, a source
sentence tokenizing to the 2 content tokens `[7, 9]` yields
`enc_num_padding_tokens = 6` and an encoder input `[SOS, 7, 9, EOS]` followed
by 6 PADs, of length exactly 10; a source sentence of 9 content tokens raises
`ValueError` instead of truncating; and in general the call raises whenever
the source token count exceeds `seq_len - 2` or the target token count
exceeds `seq_len - 1`. -/
theorem getitem_seqLen10_padding_and_overflow :
    (∀ (sos eos pad : ℤ) (decTokens : List ℤ), decTokens.length ≤ 9 →
      ∃ r, getitem 10 sos eos pad [7, 9] decTokens = .ok r ∧
        r.encNumPadding = 6 ∧
        r.encoderInput = [sos, 7, 9, eos] ++ List.replicate 6 pad ∧
        r.encoderInput.length = 10)
  ∧ (∀ (sos eos pad : ℤ) (encTokens decTokens : List ℤ), encTokens.length = 9 →
      getitem 10 sos eos pad encTokens decTokens = .error "Sentence is too long")
  ∧ (∀ (seqLen : ℕ) (sos eos pad : ℤ) (encTokens decTokens : List ℤ),
      ((encTokens.length : ℤ) > (seqLen : ℤ) - 2 ∨ (decTokens.length : ℤ) > (seqLen : ℤ) - 1) →
      getitem seqLen sos eos pad encTokens decTokens = .error "Sentence is too long") := by
  refine ⟨?_, ?_, ?_⟩
  · intro sos eos pad decTokens hdec
    have hdec' : (decTokens.length : ℤ) ≤ 9 := by exact_mod_cast hdec
    unfold getitem
    dsimp only
    split
    · next hc =>
      exfalso
      simp only [List.length_cons, List.length_nil] at hc
      omega
    · refine ⟨_, rfl, by norm_num, ?_, ?_⟩
      · norm_num
        decide
      · norm_num
        decide
  · intro sos eos pad encTokens decTokens henc
    unfold getitem
    dsimp only
    split
    · rfl
    · next hc =>
      exfalso
      push_neg at hc
      omega
  · intro seqLen sos eos pad encTokens decTokens hover
    unfold getitem
    dsimp only
    split
    · rfl
    · next hc =>
      exfalso
      push_neg at hc
      omega

/-- Closed instance of the `seq_len = 10` scenario, at the reserved-id
assignment `PAD = 1`, `SOS = 2`, `EOS = 3` and target tokens `[4]`. -/
theorem getitem_seqLen10_witness :
    (∃ r, getitem 10 2 3 1 [7, 9] [4] = .ok r ∧
        r.encNumPadding = 6 ∧
        r.encoderInput = [2, 7, 9, 3] ++ List.replicate 6 1 ∧
        r.encoderInput.length = 10)
  ∧ getitem 10 2 3 1 [11, 12, 13, 14, 15, 16, 17, 18, 19] [4]
      = .error "Sentence is too long" :=
  ⟨getitem_seqLen10_padding_and_overflow.1 2 3 1 [4] (by decide),
   getitem_seqLen10_padding_and_overflow.2.1 2 3 1 _ [4] (by decide)⟩

/-- On `ℤ`, the tensor comparison `a != b` is the decidable test `a ≠ b`. -/
theorem bne_eq_decide_ne (a b : ℤ) : (a != b) = decide (a ≠ b) := by
  by_cases h : a = b
  · subst h
    simp
  · simp [h, bne_iff_ne]

/-- C5: the decoder mask built by `BilingualDataset.__getitem__` is the
elementwise AND of the padding mask (true exactly at non-PAD positions of
`decoder_input`) with the causal mask, and `causal_mask(size)` is true at
`(i, j)` exactly when `j ≤ i`; the encoder mask is the padding mask only. -/
theorem decoderMask_padding_and_causal :
    (∀ (decoderInput : List ℤ) (pad : ℤ) (i j : ℕ),
      i < decoderInput.length → j < decoderInput.length →
      decoderMaskOf decoderInput pad i j
        = (decide (decoderInput.getD j pad ≠ pad) && decide (j ≤ i)))
  ∧ ∀ (encoderInput : List ℤ) (pad : ℤ) (j : ℕ),
      encoderMaskOf encoderInput pad j = decide (encoderInput.getD j pad ≠ pad) := by
  constructor
  · intro decoderInput pad i j hi hj
    unfold decoderMaskOf paddingMask causal_mask triuOnes
    rw [bne_eq_decide_ne]
    by_cases h : j ≤ i
    · have : ¬ (i < decoderInput.length ∧ j < decoderInput.length ∧ (i : ℤ) + 1 ≤ (j : ℤ)) := by
        push_neg
        intro _ _
        omega
      simp [this, h]
    · have : i < decoderInput.length ∧ j < decoderInput.length ∧ (i : ℤ) + 1 ≤ (j : ℤ) := by
        refine ⟨hi, hj, ?_⟩
        omega
      simp [this, h]
  · intro encoderInput pad j
    unfold encoderMaskOf paddingMask
    rw [bne_eq_decide_ne]

/-- Closed instance of the decoder-mask law on the sample `decoder_input`
`[2, 5, 1]` with `PAD = 1`: position `(i, j) = (1, 0)`. -/
theorem decoderMask_witness :
    decoderMaskOf [2, 5, 1] 1 1 0
      = (decide (([2, 5, 1] : List ℤ).getD 0 1 ≠ 1) && decide (0 ≤ 1)) :=
  decoderMask_padding_and_causal.1 [2, 5, 1] 1 1 0 (by decide) (by decide)

/-- Fuel `maxLen - len + 1` suffices for the loop, and the result keeps the
first token, ends the loop only on EOS or on reaching `max_len`, and performs
one `decode` call per appended token. -/
theorem greeedyLoop_total (nextWord : List ℤ → (ℕ → ℕ → Bool) → ℤ) (eosIdx : ℤ)
    (maxLen : ℕ) (fuel : ℕ) :
    ∀ d : List ℤ, 1 ≤ d.length → d.length ≤ maxLen → maxLen - d.length < fuel →
      ∃ res tr, greeedyLoop nextWord eosIdx maxLen fuel d = some (res, tr) ∧
        res.head? = d.head? ∧
        (res.getLast? = some eosIdx ∨ res.length = maxLen) ∧
        res.length ≤ maxLen ∧ d.length ≤ res.length ∧
        tr.length = res.length - d.length := by
  induction fuel with
  | zero =>
    intro d h1 h2 h3
    omega
  | succ fuel ih =>
    intro d h1 h2 h3
    rw [greeedyLoop]
    by_cases hlen : d.length = maxLen
    · rw [if_pos hlen]
      exact ⟨d, [], rfl, rfl, Or.inr hlen, le_of_eq hlen, le_refl _, by simp⟩
    · rw [if_neg hlen]
      have hd : d ≠ [] := List.ne_nil_of_length_pos (by omega)
      obtain ⟨x, xs, rfl⟩ := List.exists_cons_of_ne_nil hd
      simp only [List.length_cons] at h1 h2 h3 hlen
      by_cases heos : nextWord (x :: xs) (causal_mask (x :: xs).length) = eosIdx
      · rw [if_pos heos]
        refine ⟨_, _, rfl, by simp, Or.inl ?_, ?_, ?_, ?_⟩
        · rw [heos]
          exact List.getLast?_concat _
        · simp only [List.length_append, List.length_cons, List.length_nil]
          omega
        · simp only [List.length_append, List.length_cons, List.length_nil]
          omega
        · simp only [List.length_append, List.length_cons, List.length_nil]
          omega
      · rw [if_neg heos]
        obtain ⟨res, tr, hsome, hhead, hstop, hle, hlb, htr⟩ :=
          ih ((x :: xs) ++ [nextWord (x :: xs) (causal_mask (x :: xs).length)])
            (by simp) (by simp only [List.length_append, List.length_cons, List.length_nil]; omega)
            (by simp only [List.length_append, List.length_cons, List.length_nil]; omega)
        refine ⟨res, _, by rw [hsome]; rfl, ?_, hstop, hle, ?_, ?_⟩
        · rw [hhead]
          rfl
        · simp only [List.length_append, List.length_cons, List.length_nil] at hlb
          simp only [List.length_cons]
          omega
        · simp only [List.length_cons]
          simp only [List.length_append, List.length_cons, List.length_nil] at htr hlb
          omega

/-- C4: for every model (abstracted as `nextWord`), SOS/EOS pair and
`max_len ≥ 1`, `greeedy_decode` terminates with fuel `max_len` (so after at
most `max_len` loop iterations), the returned sequence starts with SOS, and
the loop ends exactly on an appended EOS or on reaching length `max_len`. -/
theorem greeedy_decode_terminates (nextWord : List ℤ → (ℕ → ℕ → Bool) → ℤ)
    (sosIdx eosIdx : ℤ) (maxLen : ℕ) (h : 1 ≤ maxLen) :
    ∃ res tr, greeedy_decode nextWord sosIdx eosIdx maxLen = some (res, tr) ∧
      res.head? = some sosIdx ∧
      (res.getLast? = some eosIdx ∨ res.length = maxLen) ∧
      res.length ≤ maxLen ∧ tr.length < maxLen := by
  obtain ⟨res, tr, hsome, hhead, hstop, hle, hlb, htr⟩ :=
    greeedyLoop_total nextWord eosIdx maxLen maxLen [sosIdx] (by simp) (by simpa) (by simp; omega)
  exact ⟨res, tr, hsome, hhead, hstop, hle, by simp at htr hlb; omega⟩

/-- Closed instance of C4 at `max_len = 5`, a model that always emits token
`0`, and `SOS = 2`, `EOS = 3`: decoding terminates in at most 5 iterations. -/
theorem greeedy_decode_terminates_witness :
    ∃ res tr, greeedy_decode (fun _ _ => (0 : ℤ)) 2 3 5 = some (res, tr) ∧
      res.head? = some 2 ∧
      (res.getLast? = some 3 ∨ res.length = 5) ∧
      res.length ≤ 5 ∧ tr.length < 5 :=
  greeedy_decode_terminates (fun _ _ => 0) 2 3 5 (by decide)

/-- Every iteration recorded in the ghost trace passed `causal_mask` of the
decoder-input length at that iteration, and the lengths grow one per
iteration starting from the entry length. -/
theorem greeedyLoop_masks (nextWord : List ℤ → (ℕ → ℕ → Bool) → ℤ) (eosIdx : ℤ)
    (maxLen : ℕ) (fuel : ℕ) :
    ∀ (d res : List ℤ) (tr : List (ℕ × (ℕ → ℕ → Bool))),
      greeedyLoop nextWord eosIdx maxLen fuel d = some (res, tr) →
      (∀ k, k < tr.length → tr.get? k = some (d.length + k, causal_mask (d.length + k))) ∧
      d.length + tr.length ≤ res.length := by
  induction fuel with
  | zero =>
    intro d res tr h
    cases h
  | succ fuel ih =>
    intro d res tr h
    rw [greeedyLoop] at h
    split at h
    · simp only [Option.some.injEq, Prod.mk.injEq] at h
      obtain ⟨rfl, rfl⟩ := h
      exact ⟨fun k hk => absurd hk (by simp), by simp⟩
    · split at h
      · simp only [Option.some.injEq, Prod.mk.injEq] at h
        obtain ⟨rfl, rfl⟩ := h
        refine ⟨?_, by simp⟩
        intro k hk
        simp only [List.length_cons, List.length_nil, Nat.lt_succ_iff, Nat.le_zero] at hk
        subst hk
        simp
      · rw [Option.map_eq_some'] at h
        obtain ⟨⟨res', tr'⟩, hsome, heq⟩ := h
        simp only [Prod.mk.injEq] at heq
        obtain ⟨rfl, rfl⟩ := heq
        obtain ⟨ihget, ihle⟩ := ih _ _ _ hsome
        constructor
        · intro k hk
          cases k with
          | zero => simp
          | succ k =>
            have hk' : k < tr'.length := by
              simp only [List.length_cons] at hk
              omega
            have hark : (d ++ [nextWord d (causal_mask d.length)]).length + k
                = d.length + (k + 1) := by
              simp only [List.length_append, List.length_cons, List.length_nil]
              omega
            have := ihget k hk'
            rw [hark] at this
            simpa using this
        · simp only [List.length_append, List.length_cons, List.length_nil] at ihle
          simp only [List.length_cons]
          omega

/-- C8: whenever `greeedy_decode` returns, the target mask passed to
`model.decode` at loop iteration `k` was the causal mask of size `1 + k`, the
decoder-input length current at that iteration (lengths grow one per
iteration from the initial length 1), and never a mask sized to the final
length `res.length`. -/
theorem greeedy_decode_mask_growth (nextWord : List ℤ → (ℕ → ℕ → Bool) → ℤ)
    (sosIdx eosIdx : ℤ) (maxLen : ℕ) (res : List ℤ)
    (tr : List (ℕ × (ℕ → ℕ → Bool)))
    (h : greeedy_decode nextWord sosIdx eosIdx maxLen = some (res, tr)) :
    ∀ k, k < tr.length →
      tr.get? k = some (1 + k, causal_mask (1 + k)) ∧ 1 + k < res.length := by
  obtain ⟨hget, hle⟩ := greeedyLoop_masks nextWord eosIdx maxLen maxLen [sosIdx] res tr h
  intro k hk
  constructor
  · have hg := hget k hk
    simpa using hg
  · simp only [List.length_cons, List.length_nil] at hle
    omega

/-- Closed instance of C8: a model that always emits token `0`, `SOS = 2`,
`EOS = 3`, `max_len = 2`; the single decode iteration used `causal_mask 1`. -/
theorem greeedy_decode_mask_growth_witness :
    ([((1 : ℕ), causal_mask 1)].get? 0 = some (1 + 0, causal_mask (1 + 0)))
  ∧ 1 + 0 < ([2, 0] : List ℤ).length :=
  greeedy_decode_mask_growth (fun _ _ => 0) 2 3 2 [2, 0] [(1, causal_mask 1)] rfl 0
    (by decide)

/-- C1 fails on the code: at the masked position `(0, 1)` the score after the
masking step is still `1` (the raw score), even though `masked_fill` itself
would have produced `-1e9` had its result been kept, and the post-softmax
probability at `(0, 1)` is exactly `1/2`, not ≈ 0: the in-place-less
`masked_fill` call on line `attention_scores.masked_fill(mask==0, -1e9)`
discards its result, so masking never takes effect. -/
theorem attention_masking_is_noop :
    attnScoresAfterMaskStep 2 1 qkOnes qkOnes 1 (some causalPair2) 0 1 = 1
  ∧ masked_fill (attnScoresRaw 2 1 qkOnes qkOnes 1)
      (fun i j => !(causalPair2 i j)) (-1000000000) 0 1 = -1000000000
  ∧ attentionWeights 2 1 qkOnes qkOnes 1 (some causalPair2) 0 1 = 1 / 2 := by
  have hraw : ∀ i j : Fin 2, attnScoresRaw 2 1 qkOnes qkOnes 1 i j = 1 := by
    intro i j
    simp [attnScoresRaw, qkOnes]
  refine ⟨?_, ?_, ?_⟩
  · simpa [attnScoresAfterMaskStep] using hraw 0 1
  · simp [masked_fill, causalPair2, hraw 0 1]
  · unfold attentionWeights softmaxRow
    have hz : ∀ j : Fin 2,
        attnScoresAfterMaskStep 2 1 qkOnes qkOnes 1 (some causalPair2) 0 j = 1 := by
      intro j
      simpa [attnScoresAfterMaskStep] using hraw 0 j
    simp only [Fin.sum_univ_two]
    simp only [hz]
    have hpos : (0 : ℝ) < Real.exp ((1 : ℚ) : ℝ) := Real.exp_pos _
    rw [div_eq_div_iff (by positivity) (by norm_num)]
    ring

/-- C2 fails on the code: with the default parameters `alpha = 1`, `bias = 0`,
`eps = 10^-6` and the input `(0, 1, 2)` (std = 1 exactly), channel 0 of
`LayerNormalization.forward` is `1 - 1000000/1000001`, i.e.
`alpha + normalized + bias`, which differs from the claimed
`alpha * normalized + bias = -1000000/1000001`: the code adds `alpha` though
its own comment declares it `# Multiplied`. -/
theorem layerNorm_adds_alpha :
    (1 : ℚ) * 1 = lastAxisVar xLN
  ∧ layerNormForward 1 0 (1 / 1000000) xLN 1 0 = 1 - 1000000 / 1000001
  ∧ layerNormForward 1 0 (1 / 1000000) xLN 1 0
      ≠ layerNormAffineSpec 1 0 (1 / 1000000) xLN 1 0 := by
  refine ⟨?_, ?_, ?_⟩ <;>
    norm_num [lastAxisVar, lastAxisMean, layerNormForward, layerNormAffineSpec, xLN,
      Fin.sum_univ_three]

/-- A `mapM` over `Option` whose steps all succeed is the plain `map` of the
returned values. -/
theorem mapM_eq_map_of_forall_some {α β : Type} (f : α → Option β) (g : α → β) :
    ∀ l : List α, (∀ a ∈ l, f a = some (g a)) → l.mapM f = some (l.map g) := by
  intro l
  induction l with
  | nil => intro _; rfl
  | cons a l ih =>
    intro h
    rw [List.mapM_cons, h a (List.mem_cons_self a l), ih (fun b hb => h b (List.mem_cons_of_mem a hb))]
    rfl

/-- C6: on a `(batch, seq_len)` id tensor whose ids all lie in
`[0, vocab_size)`, `InputEmbeddings.forward` succeeds, has shape
`(batch, seq_len, d_model)`, and every output vector is the looked-up
embedding row multiplied by `√d_model` (`sqrtD ≥ 0`, `sqrtD² = d_model`). -/
theorem inputEmbeddings_shape_and_value (weight : List (List ℚ)) (sqrtD : ℚ)
    (dModel : ℕ) (x : List (List ℤ))
    (hw : ∀ v ∈ weight, v.length = dModel)
    (hx : ∀ row ∈ x, ∀ id ∈ row, 0 ≤ id ∧ id.toNat < weight.length)
    (hs : 0 ≤ sqrtD ∧ sqrtD * sqrtD = (dModel : ℚ)) :
    inputEmbeddingsForward weight sqrtD x
      = some (x.map (fun row => row.map (fun id =>
          (weight.getD id.toNat []).map (· * sqrtD))))
  ∧ (x.map (fun row => row.map (fun id =>
      (weight.getD id.toNat []).map (· * sqrtD)))).length = x.length
  ∧ (∀ i : ℕ, ((x.map (fun row => row.map (fun id =>
      (weight.getD id.toNat []).map (· * sqrtD)))).get? i).map List.length
        = (x.get? i).map List.length)
  ∧ (∀ row ∈ x.map (fun row => row.map (fun id =>
      (weight.getD id.toNat []).map (· * sqrtD))), ∀ v ∈ row, v.length = dModel)
  := by
  have hgetD : ∀ row ∈ x, ∀ id ∈ row,
      embeddingLookup weight id = some (weight.getD id.toNat []) := by
    intro row hrow id hid
    obtain ⟨h0, hlt⟩ := hx row hrow id hid
    rw [embeddingLookup, dif_pos ⟨h0, hlt⟩, List.getD_eq_get?, List.get?_eq_get hlt]
    rfl
  refine ⟨?_, List.length_map _ _, ?_, ?_⟩
  · apply mapM_eq_map_of_forall_some
    intro row hrow
    apply mapM_eq_map_of_forall_some
    intro id hid
    rw [hgetD row hrow id hid]
    rfl
  · intro i
    rw [List.get?_map]
    cases hv : x.get? i with
    | none => rfl
    | some row => simp [List.length_map]
  · intro row hrow v hv
    obtain ⟨row0, hrow0, rfl⟩ := List.mem_map.mp hrow
    obtain ⟨id, hid, rfl⟩ := List.mem_map.mp hv
    rw [List.length_map]
    obtain ⟨h0, hlt⟩ := hx row0 hrow0 id hid
    apply hw
    rw [List.getD_eq_get?, List.get?_eq_get hlt]
    exact List.get_mem _ _ _

/-- Closed instance of C6: vocabulary of two rows over `d_model = 4`
(`√d_model = 2`), id tensor `[[1, 0], [0, 1]]`. -/
theorem inputEmbeddings_witness :
    inputEmbeddingsForward [[1, 2, 3, 4], [5, 6, 7, 8]] 2 [[1, 0], [0, 1]]
      = some (([[1, 0], [0, 1]] : List (List ℤ)).map (fun row => row.map (fun id =>
          (([[1, 2, 3, 4], [5, 6, 7, 8]] : List (List ℚ)).getD id.toNat []).map
            (· * 2)))) :=
  (inputEmbeddings_shape_and_value [[1, 2, 3, 4], [5, 6, 7, 8]] 2 4 [[1, 0], [0, 1]]
    (by decide) (by decide) (by norm_num)).1

/-- The exponential form of `div_term` is the claimed inverse power:
`exp(2i · (−log 10000 / d)) = 10000^(−2i/d)`. -/
theorem div_term_eq_rpow (dModel : ℕ) (i : ℕ) :
    div_term dModel i = ((10000 : ℝ) ^ ((2 * i : ℝ) / dModel))⁻¹ := by
  rw [div_term, ← Real.exp_log (show (0:ℝ) < ((10000 : ℝ) ^ ((2 * i : ℝ) / dModel))⁻¹ by positivity)]
  congr 1
  rw [Real.log_inv, Real.log_rpow (by norm_num)]
  ring

/-- C7: for all `pos < seq_len` and `i < d_model / 2`, the table satisfies
`PE[pos, 2i] = sin(pos / 10000^(2i/d_model))`,
`PE[pos, 2i+1] = cos(pos / 10000^(2i/d_model))`, and consequently
`PE[pos, 2i]² + PE[pos, 2i+1]² = 1`; the table is a pure function of the
constructor arguments, hence identical across calls. -/
theorem pe_sin_cos_identity (dModel seqLen pos i : ℕ)
    (hd : 0 < dModel) (hpos : pos < seqLen) (hi : i < dModel / 2) :
    pe dModel pos (2 * i) = Real.sin (pos / (10000 : ℝ) ^ ((2 * i : ℝ) / dModel))
  ∧ pe dModel pos (2 * i + 1) = Real.cos (pos / (10000 : ℝ) ^ ((2 * i : ℝ) / dModel))
  ∧ pe dModel pos (2 * i) ^ 2 + pe dModel pos (2 * i + 1) ^ 2 = 1 := by
  have heven : (2 * i) % 2 = 0 := by omega
  have hodd : ¬ (2 * i + 1) % 2 = 0 := by omega
  have hdiv1 : 2 * i / 2 = i := by omega
  have hdiv2 : (2 * i + 1) / 2 = i := by omega
  have hsin : pe dModel pos (2 * i)
      = Real.sin (pos / (10000 : ℝ) ^ ((2 * i : ℝ) / dModel)) := by
    rw [pe, if_pos heven, hdiv1, div_term_eq_rpow, div_eq_mul_inv ((pos : ℝ))]
  have hcos : pe dModel pos (2 * i + 1)
      = Real.cos (pos / (10000 : ℝ) ^ ((2 * i : ℝ) / dModel)) := by
    rw [pe, if_neg hodd, hdiv2, div_term_eq_rpow, div_eq_mul_inv ((pos : ℝ))]
  refine ⟨hsin, hcos, ?_⟩
  rw [hsin, hcos]
  exact Real.sin_sq_add_cos_sq _

/-- Closed instance of C7 at `d_model = 4`, `seq_len = 2`, `pos = 1`, `i = 1`. -/
theorem pe_sin_cos_identity_witness :
    pe 4 1 2 = Real.sin (1 / (10000 : ℝ) ^ ((2 * 1 : ℝ) / 4))
  ∧ pe 4 1 3 = Real.cos (1 / (10000 : ℝ) ^ ((2 * 1 : ℝ) / 4))
  ∧ pe 4 1 2 ^ 2 + pe 4 1 3 ^ 2 = 1 := by
  have h := pe_sin_cos_identity 4 2 1 1 (by decide) (by decide) (by decide)
  norm_num at h ⊢
  exact h

/-- C9: for every decoder-output tensor of shape `(batch, L, d_model)`,
`ProjectionLayer.forward` returns the per-position log-softmax of the linear
map, of shape `(batch, L, tgt_vocab_size)`, and for every batch element and
position the exponentials of the vocabulary entries sum to `1`. -/
theorem projection_rows_sum_one {batch L d v : ℕ} (W : Fin d → Fin v → ℝ)
    (b : Fin v → ℝ) (x : Fin batch → Fin L → Fin d → ℝ) (hv : 0 < v) :
    ∀ (bi : Fin batch) (li : Fin L),
      projectionForward W b x bi li = log_softmax (projLinear W b (x bi li)) ∧
      ∑ j, Real.exp (projectionForward W b x bi li j) = 1 := by
  intro bi li
  refine ⟨rfl, ?_⟩
  haveI : Nonempty (Fin v) := ⟨⟨0, hv⟩⟩
  have hS : (0 : ℝ) < ∑ k, Real.exp (projLinear W b (x bi li) k) :=
    Finset.sum_pos (fun k _ => Real.exp_pos _) Finset.univ_nonempty
  unfold projectionForward log_softmax
  simp only [Real.exp_sub, Real.exp_log hS]
  rw [← Finset.sum_div]
  exact div_self (ne_of_gt hS)

/-- Closed instance of C9 at `batch = L = d = v = 1` and zero weights. -/
theorem projection_rows_sum_one_witness :
    @projectionForward 1 1 1 1 (fun _ _ => 0) (fun _ => 0) (fun _ _ _ => 0) 0 0
        = @log_softmax 1 (@projLinear 1 1 (fun _ _ => 0) (fun _ => 0)
            ((fun _ _ _ => (0 : ℝ)) (0 : Fin 1) (0 : Fin 1)))
  ∧ ∑ j : Fin 1, Real.exp (@projectionForward 1 1 1 1 (fun _ _ => 0) (fun _ => 0)
      (fun _ _ _ => 0) 0 0 j) = 1 :=
  @projection_rows_sum_one 1 1 1 1 (fun _ _ => 0) (fun _ => 0)
    (fun _ _ _ => (0 : ℝ)) (by decide) 0 0

/-- C10: in the training loop, every decoder block's cross-attention during
training is masked by `decoder_mask` (the padding-AND-causal target mask),
which was passed in the `src_mask` argument slot — never by `encoder_mask`,
whenever the two differ. -/
theorem train_crossAttention_uses_decoder_mask {α : Type} (n : ℕ)
    (encoderMask decoderMask : α) :
    ∀ u ∈ trainStepDecodeMaskUse n encoderMask decoderMask,
      u.crossAttn = decoderMask ∧ u.selfAttn = decoderMask ∧
      (encoderMask ≠ decoderMask → u.crossAttn ≠ encoderMask) := by
  intro u hu
  simp only [trainStepDecodeMaskUse, transformerDecodeMaskUse] at hu
  have hu' : u = decoderBlockMaskUse decoderMask decoderMask :=
    List.eq_of_mem_replicate hu
  subst hu'
  exact ⟨rfl, rfl, fun hne => fun hc => hne (hc.symm)⟩

/-- Closed instance of C10 over mask tokens `ℕ`: `encoder_mask = 0`,
`decoder_mask = 1`, one decoder block. -/
theorem train_crossAttention_uses_decoder_mask_witness :
    (decoderBlockMaskUse 1 1 : DecoderBlockMaskUse ℕ).crossAttn = 1
  ∧ (decoderBlockMaskUse 1 1 : DecoderBlockMaskUse ℕ).selfAttn = 1
  ∧ ((0 : ℕ) ≠ 1 → (decoderBlockMaskUse 1 1 : DecoderBlockMaskUse ℕ).crossAttn ≠ 0) :=
  train_crossAttention_uses_decoder_mask 1 0 1 (decoderBlockMaskUse 1 1)
    (by simp [trainStepDecodeMaskUse, transformerDecodeMaskUse])


end TransformerScratch
